import Mathlib

set_option maxRecDepth 100000

/-!
# Verification of the Supabase schema-migration engine

Shallow embedding of the Go package `internal/supabase` (migration runner):
the statement splitter `splitSQLStatements`, the validator `validateSQL`,
the name extractor `extractTableName`, and the transactional executor
`ApplyMigration`, together with theorems settling the specification claims.

Strings are modelled as Lean `String`s (lists of characters); Go's byte
slicing `stmt[:min(len(stmt),100)]` is modelled as taking the first 100
characters (the two agree on ASCII input).  Go's `unicode.IsSpace` and
`strings.ToUpper` are modelled on the Latin-1 range, which covers every
character the migration scripts under consideration contain.
-/

namespace Supabase

/-- Whitespace as used by Go's `strings.TrimSpace` / `strings.Fields`
(`unicode.IsSpace`), restricted to the Latin-1 range:
space, \t, \n, \v, \f, \r, NEL (U+0085), NBSP (U+00A0). -/
def isSpaceGo (c : Char) : Bool :=
  c = ' ' || c = '\t' || c = '\n' || c = Char.ofNat 11 || c = Char.ofNat 12 ||
  c = '\r' || c = Char.ofNat 0x85 || c = Char.ofNat 0xA0

/-- Go `strings.ToUpper` on one character (ASCII letters). -/
def toUpperChar (c : Char) : Char :=
  if 'a' ≤ c ∧ c ≤ 'z' then Char.ofNat (c.toNat - 32) else c

/-- Go `strings.ToUpper` on a character list. -/
def toUpperL (l : List Char) : List Char := l.map toUpperChar

/-- Go `strings.TrimSpace` on a character list: drop whitespace from both ends. -/
def trimSpaceL (l : List Char) : List Char :=
  ((l.dropWhile isSpaceGo).reverse.dropWhile isSpaceGo).reverse

/-- Go `strings.TrimSpace`. -/
def trimSpaceStr (s : String) : String := String.mk (trimSpaceL s.data)

/-- Go `strings.ToUpper`. -/
def toUpperStr (s : String) : String := String.mk (toUpperL s.data)

/-- Go `strings.HasPrefix pre s` (argument order: prefix first). -/
def hasPrefixStr (pre s : String) : Bool := pre.data.isPrefixOf s.data

/-- Go `strings.Contains s sub`: `sub` occurs as a contiguous substring of `s`. -/
def containsSubL : List Char → List Char → Bool
  | _, [] => true
  | [], _ :: _ => false
  | c :: cs, sub => sub.isPrefixOf (c :: cs) || containsSubL cs sub

/-- Go `strings.Contains` on `String`. -/
def containsSubStr (s sub : String) : Bool := containsSubL s.data sub.data

/-- A character allowed inside a dollar-quote tag
(`splitSQLStatements`, the `tagEnd` scan: `_`, `a-z`, `A-Z`, `0-9`). -/
def isTagChar (c : Char) : Bool :=
  c = '_' || ('a' ≤ c && c ≤ 'z') || ('A' ≤ c && c ≤ 'Z') || ('0' ≤ c && c ≤ '9')

/-- The mutable scanning state of `splitSQLStatements`:
the Go flags `inString`, `inComment`, `inDollarQuote`+`dollarQuoteTag`
(the latter two fused into an `Option`), the statement buffer `buf`,
and the accumulated output `statements`. -/
structure SplitState where
  inString : Bool
  inComment : Bool
  dollarTag : Option (List Char)
  buf : List Char
  acc : List (List Char)
  /-- Models the Go `i++` of the escaped-quote case: when set, the next
  character has already been consumed (buffered) and is skipped whole. -/
  skipNext : Bool
  deriving Repr, DecidableEq

/-- The dollar-quote mode after one character, for the dollar-quote step
of the scanner (`splitSQLStatements` lines 217-233): at a `$` outside
strings and comments, peek a tag of the form `$[A-Za-z0-9_]*$`; if one is
matched, open a dollar-quote when none is open, close it when the matched
tag equals the open tag.  `c` is the current character, `cs` the rest. -/
def dollarNewTag (st : SplitState) (c : Char) (cs : List Char) : Option (List Char) :=
  if c = '$' ∧ st.inString = false ∧ st.inComment = false then
    let taken := cs.takeWhile isTagChar
    match cs.drop taken.length with
    | '$' :: _ =>
      let tag : List Char := '$' :: (taken ++ ['$'])
      match st.dollarTag with
      | none => some tag
      | some t => if tag = t then none else some t
    | _ => st.dollarTag
  else st.dollarTag

/-- The dollar-quote step of the scanner: only `dollarTag` changes. -/
def dollarUpdate (st : SplitState) (c : Char) (cs : List Char) : SplitState :=
  { st with dollarTag := dollarNewTag st c cs }

/-- The comment mode after one character, for the line-comment step of
the scanner (`splitSQLStatements` lines 236-246): outside strings and
dollar-quotes, a newline ends an open comment and `--` opens one. -/
def commentNewFlag (st : SplitState) (c : Char) (cs : List Char) : Bool :=
  if st.inString = false ∧ st.dollarTag = none then
    if st.inComment then
      if c = '\n' then false else st.inComment
    else
      if c = '-' ∧ cs.head? = some '-' then true else st.inComment
  else st.inComment

/-- The line-comment step of the scanner: only `inComment` changes. -/
def commentUpdate (st : SplitState) (c : Char) (cs : List Char) : SplitState :=
  { st with inComment := commentNewFlag st c cs }

/-- The tail of each scanner iteration (`splitSQLStatements` lines
264-274): a semicolon in `Normal` mode emits the trimmed buffer (if
non-empty) and resets it without retaining the semicolon; every other
character is appended to the buffer. -/
def semiOrWrite (st : SplitState) (c : Char) : SplitState :=
  if c = ';' ∧ st.inString = false ∧ st.inComment = false ∧ st.dollarTag = none then
    { st with buf := [],
              acc := if trimSpaceL st.buf ≠ [] then st.acc ++ [trimSpaceL st.buf]
                     else st.acc }
  else
    { st with buf := st.buf ++ [c] }

/-- The dollar-quote step followed by the comment step: the mode
updates that precede quote handling in each scanner iteration. -/
def modesUpdate (st : SplitState) (c : Char) (cs : List Char) : SplitState :=
  commentUpdate (dollarUpdate st c cs) c cs

/-- One iteration of the scanner on the current character `c` with
remaining input `cs` (`splitSQLStatements` lines 213-275): dollar-quote
step, then comment step, then quote handling (the escaped-quote case
buffers both quotes and sets `skipNext`, modelling the Go `i++` +
`continue`), then semicolon-or-write. -/
def splitStep (st : SplitState) (c : Char) (cs : List Char) : SplitState :=
  if st.skipNext then
    { st with skipNext := false }
  else
    if (modesUpdate st c cs).inComment = false ∧ (modesUpdate st c cs).dollarTag = none ∧
        c = '\'' then
      if (modesUpdate st c cs).inString then
        if cs.head? = some '\'' then
          -- escaped quote: both characters are buffered, scanning skips both
          { modesUpdate st c cs with
              buf := (modesUpdate st c cs).buf ++ ['\'', '\''], skipNext := true }
        else semiOrWrite { modesUpdate st c cs with inString := false } c
      else
        semiOrWrite { modesUpdate st c cs with inString := true } c
    else
      semiOrWrite (modesUpdate st c cs) c

/-- The scanning loop of `splitSQLStatements` (lines 213-283): one
left-to-right pass stepping one character at a time; at end of input the
trimmed buffer is emitted if non-empty. -/
def splitLoop : SplitState → List Char → List (List Char)
  | st, [] =>
    let stmt := trimSpaceL st.buf
    if stmt ≠ [] then st.acc ++ [stmt] else st.acc
  | st, c :: cs => splitLoop (splitStep st c cs) cs

/-- The initial scanner state. -/
def initSplitState : SplitState :=
  { inString := false, inComment := false, dollarTag := none, buf := [], acc := [],
    skipNext := false }

/-- Go `splitSQLStatements`: split a SQL script into individual statements. -/
def splitSQLStatements (sql : String) : List String :=
  (splitLoop initSplitState sql.data).map String.mk

/-- Go `strings.Fields`: split around runs of whitespace, no empty fields.
The second argument accumulates the current field in reverse. -/
def fieldsAux : List Char → List Char → List (List Char)
  | [], w => if w = [] then [] else [w.reverse]
  | c :: cs, w =>
    if isSpaceGo c then
      if w = [] then fieldsAux cs [] else w.reverse :: fieldsAux cs []
    else fieldsAux cs (c :: w)

/-- Go `strings.Fields` on a `String`. -/
def fields (s : String) : List (List Char) := fieldsAux s.data []

/-- Go `strings.Index tn "."`: index of the first `.`, as an `Option`
(Go's `-1` becomes `none`). -/
def indexOfDot (tn : List Char) : Option Nat := tn.findIdx? (· = '.')

/-- Lines 310-312 of `extractTableName`: drop the schema prefix up to and
including the **first** `.` (Go `strings.Index`), when that dot is at a
positive index. -/
def stripAfterFirstDot (tn : List Char) : List Char :=
  match indexOfDot tn with
  | some idx => if idx > 0 then tn.drop (idx + 1) else tn
  | none => tn

/-- Line 314 of `extractTableName` (`strings.TrimSuffix(tableName, "(")`):
strip one trailing `(`. -/
def stripTrailingParen (tn : List Char) : List Char :=
  if tn.getLast? = some '(' then tn.dropLast else tn

/-- Line 315 of `extractTableName` (`strings.Trim` of double quotes):
strip all leading and trailing double quotes. -/
def stripQuotes (tn : List Char) : List Char :=
  ((tn.dropWhile (· = '"')).reverse.dropWhile (· = '"')).reverse

/-- The candidate-name cleanup of `extractTableName` (lines 309-316):
first-dot schema strip, then trailing `(`, then surrounding quotes. -/
def cleanupName (tn : List Char) : List Char :=
  stripQuotes (stripTrailingParen (stripAfterFirstDot tn))

/-- The token scan of `extractTableName` (lines 298-318): find a field
equal (case-insensitively) to `TABLE` with a successor; if the successor
is `IF`, take the field three further on when it exists, otherwise keep
scanning; clean the candidate up. -/
def findTableName : List (List Char) → List Char
  | [] => []
  | p :: rest =>
    if toUpperL p = ['T', 'A', 'B', 'L', 'E'] ∧ rest ≠ [] then
      match rest with
      | [] => []
      | tn0 :: rest2 =>
        if toUpperL tn0 = ['I', 'F'] then
          match rest2 with
          | _ :: _ :: tn4 :: _ => cleanupName tn4
          | _ => findTableName rest
        else cleanupName tn0
    else findTableName rest

/-- Go `extractTableName`: extract the table name from a `CREATE TABLE`
statement, or return `""`. -/
def extractTableName (stmt : String) : String :=
  let upperStmt := toUpperStr (trimSpaceStr stmt)
  if hasPrefixStr "CREATE TABLE" upperStmt then
    String.mk (findTableName (fields stmt))
  else ""

/-- The fixed denylist of `validateSQL` (lines 186-190), in source order. -/
def dangerousOps : List String :=
  ["DROP DATABASE", "DROP SCHEMA", "TRUNCATE DATABASE"]

/-- Go `validateSQL`: `none` when the script passes, `some msg` with the
error message when it is rejected.  The script is trimmed; an empty
result is rejected first; then the uppercased script is scanned for the
denylisted substrings in order. -/
def validateSQL (sql : String) : Option String :=
  if trimSpaceStr sql = "" then some "SQL cannot be empty"
  else
    match dangerousOps.find?
        (fun danger => containsSubStr (toUpperStr (trimSpaceStr sql)) danger) with
    | some danger => some ("dangerous operation detected: " ++ danger)
    | none => none

/-! ## The transactional executor

`ApplyMigration` talks to the database through `sql.Tx`.  The database is
modelled as an oracle `DBConn`: whether `Begin` fails, the outcome of
executing the statement at each loop position (error, or the
affected-row count reported by `RowsAffected`; the ignored
`RowsAffected` error is folded into the reported count), and whether
`Commit` fails.  Every transaction-level call the Go function makes is
recorded in an ordered log, so that atomicity (what was executed,
whether the transaction committed or was rolled back, and in what
order) is visible in the model. -/

/-- Outcome of `tx.Exec` for one statement. -/
inductive ExecOutcome where
  | ok (rowsAffected : Nat)
  | err (msg : String)
  deriving Repr, DecidableEq

/-- The database oracle: `beginErr`/`commitErr` are `some msg` when
`db.Begin()` / `tx.Commit()` fail, and `exec i stmt` is the outcome of
`tx.Exec stmt` for the statement at (0-based) loop index `i`. -/
structure DBConn where
  beginErr : Option String
  exec : Nat → String → ExecOutcome
  commitErr : Option String

/-- One recorded transaction-level call. -/
inductive TxOp where
  | txBegin
  | txExec (idx : Nat) (stmt : String) (outcome : ExecOutcome)
  | txCommit (ok : Bool)
  | txRollback
  deriving Repr, DecidableEq

/-- Go `MigrationResult` (internal/supabase/types.go).  `ExecutionTime`
(wall-clock) is not modelled.  Zero values as in Go: `false`, `[]`, `0`,
`""`, `0`. -/
structure MigrationResult where
  success : Bool := false
  tablesCreated : List String := []
  rowsInserted : Nat := 0
  error : String := ""
  statementsRun : Nat := 0
  deriving Repr, DecidableEq

/-- What one `ApplyMigration` call returns: the `*MigrationResult`, the
Go `error` return value (`some msg` when non-nil), and the ordered log
of transaction-level calls made. -/
structure ApplyOutcome where
  result : MigrationResult
  errOut : Option String
  log : List TxOp
  deriving Repr, DecidableEq

/-- The statement loop of `ApplyMigration` (lines 100-141) together with
the commit step and the deferred rollback (`defer`: rolled back exactly
when the final result has `Success = false`).  Arguments: the oracle,
the result under construction, remaining statements, current 0-based
index, the `tablesCreated` and `totalRowsInserted` accumulators, and
the transaction log so far. -/
def execLoop (db : DBConn) (res : MigrationResult) :
    List String → Nat → List String → Nat → List TxOp → ApplyOutcome
  | [], _, tables, rows, log =>
    match db.commitErr with
    | some e =>
      -- commit failed; the deferred rollback fires since Success is false
      { result := { res with error := "failed to commit transaction: " ++ e },
        errOut := some e,
        log := log ++ [.txCommit false, .txRollback] }
    | none =>
      { result := { res with success := true, tablesCreated := tables,
                             rowsInserted := rows },
        errOut := none,
        log := log ++ [.txCommit true] }
  | stmt0 :: ss, i, tables, rows, log =>
    if trimSpaceStr stmt0 = "" then execLoop db res ss (i + 1) tables rows log
    else
      match db.exec i (trimSpaceStr stmt0) with
      | .err e =>
        -- first failing statement: stop, report index and ≤100-char excerpt,
        -- deferred rollback fires
        { result := { res with
            error := "statement " ++ toString (i + 1) ++ " failed: " ++ e ++
                     "\nStatement: " ++ String.mk ((trimSpaceStr stmt0).data.take 100) },
          errOut := some ("failed to execute statement " ++ toString (i + 1) ++ ": " ++ e),
          log := log ++ [.txExec i (trimSpaceStr stmt0) (.err e), .txRollback] }
      | .ok n =>
        execLoop db res ss (i + 1)
          (if hasPrefixStr "CREATE TABLE" (toUpperStr (trimSpaceStr stmt0)) then
            (if extractTableName (trimSpaceStr stmt0) ≠ "" then
              tables ++ [extractTableName (trimSpaceStr stmt0)]
            else tables)
          else tables)
          (if hasPrefixStr "INSERT" (toUpperStr (trimSpaceStr stmt0)) then rows + n else rows)
          (log ++ [.txExec i (trimSpaceStr stmt0) (.ok n)])

/-- Go `ApplyMigration` (lines 66-141): validate, split, set
`StatementsRun` to the number of split statements, begin one
transaction, run `execLoop`. -/
def applyMigration (db : DBConn) (sqlScript : String) : ApplyOutcome :=
  match validateSQL sqlScript with
  | some err =>
    { result := { success := false, error := "SQL validation failed: " ++ err },
      errOut := some err, log := [] }
  | none =>
    match db.beginErr with
    | some e =>
      { result := { success := false,
                    statementsRun := (splitSQLStatements sqlScript).length,
                    error := "failed to begin transaction: " ++ e },
        errOut := some e, log := [] }
    | none =>
      execLoop db
        { success := false, statementsRun := (splitSQLStatements sqlScript).length }
        (splitSQLStatements sqlScript) 0 [] 0 [.txBegin]

/-- A transaction-level call that reports a failure: a failed statement
execution or a failed commit. -/
def isFailOp : TxOp → Bool
  | .txExec _ _ (.err _) => true
  | .txCommit false => true
  | _ => false

/-- The log entries produced by executing the statements of `ss`
starting at index `i`, with the outcomes the oracle reports. -/
def execLogOf (db : DBConn) : Nat → List String → List TxOp
  | _, [] => []
  | i, s :: ss => TxOp.txExec i s (db.exec i s) :: execLogOf db (i + 1) ss

/-! ## Spec-modelled variant for claim C6

The claim states that the schema-qualification prefix is stripped "up to
and including the last `.` in that token".  The definitions below are
modelled from those words (last dot instead of the source's
`strings.Index` first dot, everything else mirroring the source), to be
compared with `extractTableName`. -/

/-- Modelled from the spec: cleanup that strips up to the **last** dot. -/
def stripAfterLastDotClaim (tn : List Char) : List Char :=
  match tn.reverse.findIdx? (· = '.') with
  | some r => if tn.length - 1 - r > 0 then tn.drop (tn.length - 1 - r + 1) else tn
  | none => tn

/-- Modelled from the spec: the claimed candidate cleanup (last dot). -/
def cleanupNameClaim (tn : List Char) : List Char :=
  stripQuotes (stripTrailingParen (stripAfterLastDotClaim tn))

/-- Modelled from the spec: the claimed token scan, differing from
`findTableName` only in the cleanup used. -/
def findTableNameClaim : List (List Char) → List Char
  | [] => []
  | p :: rest =>
    if toUpperL p = ['T', 'A', 'B', 'L', 'E'] ∧ rest ≠ [] then
      match rest with
      | [] => []
      | tn0 :: rest2 =>
        if toUpperL tn0 = ['I', 'F'] then
          match rest2 with
          | _ :: _ :: tn4 :: _ => cleanupNameClaim tn4
          | _ => findTableNameClaim rest
        else cleanupNameClaim tn0
    else findTableNameClaim rest

/-- Modelled from the spec: the claimed extraction (last-dot cleanup). -/
def extractTableNameClaim (stmt : String) : String :=
  if hasPrefixStr "CREATE TABLE" (toUpperStr (trimSpaceStr stmt)) then
    String.mk (findTableNameClaim (fields stmt))
  else ""

/-! ## Helper lemmas about the scanner state updates -/

@[simp] theorem dollarUpdate_inString (st : SplitState) (c : Char) (cs : List Char) :
    (dollarUpdate st c cs).inString = st.inString := rfl

@[simp] theorem dollarUpdate_inComment (st : SplitState) (c : Char) (cs : List Char) :
    (dollarUpdate st c cs).inComment = st.inComment := rfl

@[simp] theorem dollarUpdate_buf (st : SplitState) (c : Char) (cs : List Char) :
    (dollarUpdate st c cs).buf = st.buf := rfl

@[simp] theorem dollarUpdate_acc (st : SplitState) (c : Char) (cs : List Char) :
    (dollarUpdate st c cs).acc = st.acc := rfl

@[simp] theorem dollarUpdate_skipNext (st : SplitState) (c : Char) (cs : List Char) :
    (dollarUpdate st c cs).skipNext = st.skipNext := rfl

theorem dollarNewTag_not_dollar (st : SplitState) (c : Char) (cs : List Char)
    (hc : c ≠ '$') : dollarNewTag st c cs = st.dollarTag := by
  unfold dollarNewTag
  rw [if_neg]
  intro h
  exact hc h.1

theorem dollarUpdate_not_dollar (st : SplitState) (c : Char) (cs : List Char)
    (hc : c ≠ '$') : dollarUpdate st c cs = st := by
  show { st with dollarTag := dollarNewTag st c cs } = st
  rw [dollarNewTag_not_dollar st c cs hc]

@[simp] theorem commentUpdate_inString (st : SplitState) (c : Char) (cs : List Char) :
    (commentUpdate st c cs).inString = st.inString := rfl

@[simp] theorem commentUpdate_dollarTag (st : SplitState) (c : Char) (cs : List Char) :
    (commentUpdate st c cs).dollarTag = st.dollarTag := rfl

@[simp] theorem commentUpdate_buf (st : SplitState) (c : Char) (cs : List Char) :
    (commentUpdate st c cs).buf = st.buf := rfl

@[simp] theorem commentUpdate_acc (st : SplitState) (c : Char) (cs : List Char) :
    (commentUpdate st c cs).acc = st.acc := rfl

@[simp] theorem commentUpdate_skipNext (st : SplitState) (c : Char) (cs : List Char) :
    (commentUpdate st c cs).skipNext = st.skipNext := rfl

theorem commentNewFlag_of_quiet (st : SplitState) (c : Char) (cs : List Char)
    (hcomment : st.inComment = false) (hc : c ≠ '-') : commentNewFlag st c cs = st.inComment := by
  unfold commentNewFlag
  split
  · rw [hcomment]
    simp only [Bool.false_eq_true, if_false]
    rw [if_neg]
    intro h
    exact hc h.1
  · rfl

theorem commentUpdate_of_quiet (st : SplitState) (c : Char) (cs : List Char)
    (hcomment : st.inComment = false) (hc : c ≠ '-') : commentUpdate st c cs = st := by
  show { st with inComment := commentNewFlag st c cs } = st
  rw [commentNewFlag_of_quiet st c cs hcomment hc]

/-! ## Helper lemmas about trimming -/

theorem trimSpaceL_eq_rdrop (l : List Char) :
    trimSpaceL l = List.rdropWhile isSpaceGo (l.dropWhile isSpaceGo) := rfl

theorem dropWhile_rdropWhile_self (p : Char → Bool) (x : List Char)
    (hx : x.dropWhile p = x) :
    (List.rdropWhile p x).dropWhile p = List.rdropWhile p x := by
  rcases hr : List.rdropWhile p x with _ | ⟨a, ys⟩
  · simp
  · obtain ⟨t, ht⟩ := List.rdropWhile_prefix p x
    rw [hr] at ht
    have hpa : p a = false := by
      by_contra hpa
      rw [Bool.not_eq_false] at hpa
      rw [← ht, List.cons_append, List.dropWhile_cons_of_pos hpa] at hx
      have hlen := congrArg List.length hx
      have hle := (List.dropWhile_sublist (l := ys ++ t) p).length_le
      simp only [List.length_cons, List.length_append] at hlen hle
      omega
    rw [List.dropWhile_cons_of_neg (by simp [hpa])]

theorem trimSpaceL_idem (l : List Char) : trimSpaceL (trimSpaceL l) = trimSpaceL l := by
  rw [trimSpaceL_eq_rdrop, trimSpaceL_eq_rdrop,
    dropWhile_rdropWhile_self isSpaceGo _ (List.dropWhile_idempotent isSpaceGo l),
    List.rdropWhile_idempotent]

theorem trimSpaceL_eq_nil (l : List Char) (h : ∀ c ∈ l, isSpaceGo c = true) :
    trimSpaceL l = [] := by
  rw [trimSpaceL_eq_rdrop, List.dropWhile_eq_nil_iff.mpr (by simpa using h)]
  simp

theorem trimSpaceStr_mk (l : List Char) :
    trimSpaceStr (String.mk l) = String.mk (trimSpaceL l) := rfl

/-! ## Step lemmas for the scanning loop -/

theorem commentUpdate_in_dollar (st : SplitState) (c : Char) (cs : List Char)
    (t : List Char) (hd : st.dollarTag = some t) : commentUpdate st c cs = st := by
  show { st with inComment := commentNewFlag st c cs } = st
  unfold commentNewFlag
  rw [if_neg (by simp [hd])]

theorem commentUpdate_in_string (st : SplitState) (c : Char) (cs : List Char)
    (hs : st.inString = true) : commentUpdate st c cs = st := by
  show { st with inComment := commentNewFlag st c cs } = st
  unfold commentNewFlag
  rw [if_neg (by simp [hs])]

theorem semiOrWrite_semi (st : SplitState) (hs : st.inString = false)
    (hc : st.inComment = false) (hd : st.dollarTag = none) :
    semiOrWrite st ';' =
      { st with
          buf := [],
          acc := st.acc ++ (if trimSpaceL st.buf ≠ [] then [trimSpaceL st.buf] else []) } := by
  unfold semiOrWrite
  rw [if_pos ⟨rfl, hs, hc, hd⟩]
  show ({ st with
            buf := [],
            acc := if trimSpaceL st.buf ≠ [] then st.acc ++ [trimSpaceL st.buf]
                   else st.acc } : SplitState) = _
  split
  · rfl
  · simp

theorem semiOrWrite_write (st : SplitState) (c : Char)
    (h : ¬(c = ';' ∧ st.inString = false ∧ st.inComment = false ∧ st.dollarTag = none)) :
    semiOrWrite st c = { st with buf := st.buf ++ [c] } := by
  unfold semiOrWrite
  rw [if_neg h]

/-- Skip step: after an escaped quote the next character is consumed whole. -/
theorem splitStep_skip (st : SplitState) (c : Char) (cs : List Char)
    (h : st.skipNext = true) :
    splitStep st c cs = { st with skipNext := false } := by
  unfold splitStep
  rw [if_pos h]

/-- A semicolon in `Normal` mode emits the trimmed buffer (if non-empty),
resets the buffer, and does not retain the semicolon. -/
theorem splitStep_semi_normal (st : SplitState) (cs : List Char)
    (hskip : st.skipNext = false) (hs : st.inString = false)
    (hc : st.inComment = false) (hd : st.dollarTag = none) :
    splitStep st ';' cs =
      { st with
          buf := [],
          acc := st.acc ++
            (if trimSpaceL st.buf ≠ [] then [trimSpaceL st.buf] else []) } := by
  have h1 : dollarUpdate st ';' cs = st := dollarUpdate_not_dollar _ _ _ (by decide)
  have h2 : commentUpdate st ';' cs = st := commentUpdate_of_quiet _ _ _ hc (by decide)
  have hm : modesUpdate st ';' cs = st := by
    unfold modesUpdate; rw [h1, h2]
  unfold splitStep
  rw [if_neg (by rw [hskip]; exact Bool.false_ne_true)]
  rw [hm]
  rw [if_neg (by intro h; exact absurd h.2.2 (by decide))]
  rw [semiOrWrite_semi st hs hc hd]

/-- A semicolon inside an open dollar-quote is buffered, never a separator. -/
theorem splitStep_semi_in_dollar (st : SplitState) (cs : List Char) (t : List Char)
    (hskip : st.skipNext = false) (hd : st.dollarTag = some t) :
    splitStep st ';' cs = { st with buf := st.buf ++ [';'] } := by
  have h1 : dollarUpdate st ';' cs = st := dollarUpdate_not_dollar _ _ _ (by decide)
  have h2 : commentUpdate st ';' cs = st := commentUpdate_in_dollar _ _ _ t hd
  have hm : modesUpdate st ';' cs = st := by
    unfold modesUpdate; rw [h1, h2]
  unfold splitStep
  rw [if_neg (by rw [hskip]; exact Bool.false_ne_true)]
  rw [hm]
  rw [if_neg (by intro h; exact absurd h.2.2 (by decide))]
  rw [semiOrWrite_write st ';'
    (by intro h; rw [hd] at h; exact Option.noConfusion h.2.2.2)]

/-- A semicolon inside an open string literal is buffered, never a separator. -/
theorem splitStep_semi_in_string (st : SplitState) (cs : List Char)
    (hskip : st.skipNext = false) (hs : st.inString = true) :
    splitStep st ';' cs = { st with buf := st.buf ++ [';'] } := by
  have h1 : dollarUpdate st ';' cs = st := dollarUpdate_not_dollar _ _ _ (by decide)
  have h2 : commentUpdate st ';' cs = st := commentUpdate_in_string _ _ _ hs
  have hm : modesUpdate st ';' cs = st := by
    unfold modesUpdate; rw [h1, h2]
  unfold splitStep
  rw [if_neg (by rw [hskip]; exact Bool.false_ne_true)]
  rw [hm]
  rw [if_neg (by intro h; exact absurd h.2.2 (by decide))]
  rw [semiOrWrite_write st ';'
    (by intro h; rw [hs] at h; exact Bool.noConfusion h.2.1)]

/-- A semicolon inside a line comment is buffered, never a separator. -/
theorem splitStep_semi_in_comment (st : SplitState) (cs : List Char)
    (hskip : st.skipNext = false) (hs : st.inString = false)
    (hcm : st.inComment = true) (hd : st.dollarTag = none) :
    splitStep st ';' cs = { st with buf := st.buf ++ [';'] } := by
  have h1 : dollarUpdate st ';' cs = st := dollarUpdate_not_dollar _ _ _ (by decide)
  have h2 : commentUpdate st ';' cs = st := by
    show { st with inComment := commentNewFlag st ';' cs } = st
    unfold commentNewFlag
    rw [if_pos ⟨hs, hd⟩, if_pos hcm, if_neg (by decide)]
  have hm : modesUpdate st ';' cs = st := by
    unfold modesUpdate; rw [h1, h2]
  unfold splitStep
  rw [if_neg (by rw [hskip]; exact Bool.false_ne_true)]
  rw [hm]
  rw [if_neg (by intro h; rw [hcm] at h; exact Bool.noConfusion h.1)]
  rw [semiOrWrite_write st ';'
    (by intro h; rw [hcm] at h; exact Bool.noConfusion h.2.2.1)]

/-- A dollar sign outside strings and comments: the scanner applies the
tag-matching transition `dollarNewTag` and buffers the character. -/
theorem splitStep_dollar_char (st : SplitState) (cs : List Char)
    (hskip : st.skipNext = false) (hs : st.inString = false)
    (hc : st.inComment = false) :
    splitStep st '$' cs =
      { st with dollarTag := dollarNewTag st '$' cs, buf := st.buf ++ ['$'] } := by
  have hm : modesUpdate st '$' cs = { st with dollarTag := dollarNewTag st '$' cs } := by
    unfold modesUpdate
    rw [show dollarUpdate st '$' cs
        = { st with dollarTag := dollarNewTag st '$' cs } from rfl]
    exact commentUpdate_of_quiet _ _ _ hc (by decide)
  unfold splitStep
  rw [if_neg (by rw [hskip]; exact Bool.false_ne_true)]
  rw [hm]
  rw [if_neg (by intro h; exact absurd h.2.2 (by decide))]
  rw [semiOrWrite_write _ '$' (by intro h; exact absurd h.1 (by decide))]

/-- An unescaped quote outside any mode opens a string literal; the
quote itself is buffered. -/
theorem splitStep_quote_open (st : SplitState) (cs : List Char)
    (hskip : st.skipNext = false) (hs : st.inString = false)
    (hc : st.inComment = false) (hd : st.dollarTag = none) :
    splitStep st '\'' cs = { st with inString := true, buf := st.buf ++ ['\''] } := by
  have h1 : dollarUpdate st '\'' cs = st := dollarUpdate_not_dollar _ _ _ (by decide)
  have h2 : commentUpdate st '\'' cs = st := commentUpdate_of_quiet _ _ _ hc (by decide)
  have hm : modesUpdate st '\'' cs = st := by
    unfold modesUpdate; rw [h1, h2]
  unfold splitStep
  rw [if_neg (by rw [hskip]; exact Bool.false_ne_true)]
  rw [hm]
  rw [if_pos (by exact ⟨hc, hd, by trivial⟩)]
  rw [if_neg (by rw [hs]; exact Bool.false_ne_true)]
  rw [semiOrWrite_write _ '\'' (by intro h; exact absurd h.1 (by decide))]

/-- An unescaped quote inside an open string (not followed by another
quote) closes it; the quote itself is buffered. -/
theorem splitStep_quote_close (st : SplitState) (cs : List Char)
    (hskip : st.skipNext = false) (hs : st.inString = true)
    (hc : st.inComment = false) (hd : st.dollarTag = none)
    (hnext : cs.head? ≠ some '\'') :
    splitStep st '\'' cs = { st with inString := false, buf := st.buf ++ ['\''] } := by
  have h1 : dollarUpdate st '\'' cs = st := dollarUpdate_not_dollar _ _ _ (by decide)
  have h2 : commentUpdate st '\'' cs = st := commentUpdate_in_string _ _ _ hs
  have hm : modesUpdate st '\'' cs = st := by
    unfold modesUpdate; rw [h1, h2]
  unfold splitStep
  rw [if_neg (by rw [hskip]; exact Bool.false_ne_true)]
  rw [hm]
  rw [if_pos (by exact ⟨hc, hd, by trivial⟩)]
  rw [if_pos hs]
  rw [if_neg hnext]
  rw [semiOrWrite_write _ '\'' (by intro h; exact absurd h.1 (by decide))]

/-- The first quote of an escaped pair inside an open string: both
quotes are buffered at once and the skip flag is set. -/
theorem splitStep_escaped_quote (st : SplitState) (cs : List Char)
    (hskip : st.skipNext = false) (hs : st.inString = true)
    (hc : st.inComment = false) (hd : st.dollarTag = none) :
    splitStep st '\'' ('\'' :: cs) =
      { st with buf := st.buf ++ ['\'', '\''], skipNext := true } := by
  have h1 : dollarUpdate st '\'' ('\'' :: cs) = st := dollarUpdate_not_dollar _ _ _ (by decide)
  have h2 : commentUpdate st '\'' ('\'' :: cs) = st := commentUpdate_in_string _ _ _ hs
  have hm : modesUpdate st '\'' ('\'' :: cs) = st := by
    unfold modesUpdate; rw [h1, h2]
  unfold splitStep
  rw [if_neg (by rw [hskip]; exact Bool.false_ne_true)]
  rw [hm]
  rw [if_pos (by exact ⟨hc, hd, by trivial⟩)]
  rw [if_pos hs]
  rw [if_pos (by trivial)]

/-- One loop iteration is one `splitStep`. -/
theorem splitLoop_cons (st : SplitState) (c : Char) (cs : List Char) :
    splitLoop st (c :: cs) = splitLoop (splitStep st c cs) cs := by
  rw [splitLoop]

/-- End of input: the trimmed buffer is emitted if non-empty. -/
theorem splitLoop_nil (st : SplitState) :
    splitLoop st [] =
      st.acc ++ (if trimSpaceL st.buf ≠ [] then [trimSpaceL st.buf] else []) := by
  rw [splitLoop]
  show (if trimSpaceL st.buf ≠ [] then st.acc ++ [trimSpaceL st.buf] else st.acc) = _
  split
  · rfl
  · simp

/-- A semicolon in `Normal` mode, seen from the loop. -/
theorem splitLoop_semi_normal (st : SplitState) (cs : List Char)
    (hskip : st.skipNext = false) (hs : st.inString = false)
    (hc : st.inComment = false) (hd : st.dollarTag = none) :
    splitLoop st (';' :: cs) =
      splitLoop { st with
                    buf := [],
                    acc := st.acc ++
                      (if trimSpaceL st.buf ≠ [] then [trimSpaceL st.buf] else []) } cs := by
  rw [splitLoop_cons, splitStep_semi_normal st cs hskip hs hc hd]

/-- A semicolon inside an open dollar-quote, seen from the loop. -/
theorem splitLoop_semi_in_dollar (st : SplitState) (cs : List Char) (t : List Char)
    (hskip : st.skipNext = false) (hd : st.dollarTag = some t) :
    splitLoop st (';' :: cs) = splitLoop { st with buf := st.buf ++ [';'] } cs := by
  rw [splitLoop_cons, splitStep_semi_in_dollar st cs t hskip hd]

/-- A semicolon inside an open string literal, seen from the loop. -/
theorem splitLoop_semi_in_string (st : SplitState) (cs : List Char)
    (hskip : st.skipNext = false) (hs : st.inString = true) :
    splitLoop st (';' :: cs) = splitLoop { st with buf := st.buf ++ [';'] } cs := by
  rw [splitLoop_cons, splitStep_semi_in_string st cs hskip hs]

/-- A semicolon inside a line comment, seen from the loop. -/
theorem splitLoop_semi_in_comment (st : SplitState) (cs : List Char)
    (hskip : st.skipNext = false) (hs : st.inString = false)
    (hcm : st.inComment = true) (hd : st.dollarTag = none) :
    splitLoop st (';' :: cs) = splitLoop { st with buf := st.buf ++ [';'] } cs := by
  rw [splitLoop_cons, splitStep_semi_in_comment st cs hskip hs hcm hd]

/-- A dollar sign outside strings and comments, seen from the loop. -/
theorem splitLoop_dollar_char (st : SplitState) (cs : List Char)
    (hskip : st.skipNext = false) (hs : st.inString = false)
    (hc : st.inComment = false) :
    splitLoop st ('$' :: cs) =
      splitLoop { st with dollarTag := dollarNewTag st '$' cs,
                          buf := st.buf ++ ['$'] } cs := by
  rw [splitLoop_cons, splitStep_dollar_char st cs hskip hs hc]

/-- Opening quote, seen from the loop. -/
theorem splitLoop_quote_open (st : SplitState) (cs : List Char)
    (hskip : st.skipNext = false) (hs : st.inString = false)
    (hc : st.inComment = false) (hd : st.dollarTag = none) :
    splitLoop st ('\'' :: cs) =
      splitLoop { st with inString := true, buf := st.buf ++ ['\''] } cs := by
  rw [splitLoop_cons, splitStep_quote_open st cs hskip hs hc hd]

/-- Closing quote, seen from the loop. -/
theorem splitLoop_quote_close (st : SplitState) (cs : List Char)
    (hskip : st.skipNext = false) (hs : st.inString = true)
    (hc : st.inComment = false) (hd : st.dollarTag = none)
    (hnext : cs.head? ≠ some '\'') :
    splitLoop st ('\'' :: cs) =
      splitLoop { st with inString := false, buf := st.buf ++ ['\''] } cs := by
  rw [splitLoop_cons, splitStep_quote_close st cs hskip hs hc hd hnext]

/-- An escaped pair of quotes inside an open string: both quotes are
buffered, the string stays open, scanning continues past both. -/
theorem splitLoop_escaped_quote (st : SplitState) (cs : List Char)
    (hskip : st.skipNext = false) (hs : st.inString = true)
    (hc : st.inComment = false) (hd : st.dollarTag = none) :
    splitLoop st ('\'' :: '\'' :: cs) =
      splitLoop { st with buf := st.buf ++ ['\'', '\''] } cs := by
  rw [splitLoop_cons, splitStep_escaped_quote st cs hskip hs hc hd]
  rw [splitLoop_cons, splitStep_skip _ _ _ (by rfl)]
  rw [hskip]

/-! ## Soundness of the emitted statements -/

theorem semiOrWrite_acc_mem (st : SplitState) (c : Char) (s : List Char)
    (hs : s ∈ (semiOrWrite st c).acc) :
    s ∈ st.acc ∨ (s = trimSpaceL st.buf ∧ trimSpaceL st.buf ≠ []) := by
  unfold semiOrWrite at hs
  split at hs
  · change s ∈ (if trimSpaceL st.buf ≠ [] then st.acc ++ [trimSpaceL st.buf]
      else st.acc) at hs
    split at hs
    · rcases List.mem_append.mp hs with h1 | h2
      · exact Or.inl h1
      · exact Or.inr ⟨List.mem_singleton.mp h2, by assumption⟩
    · exact Or.inl hs
  · exact Or.inl hs

theorem splitStep_acc_mem (st : SplitState) (c : Char) (cs : List Char) (s : List Char)
    (hs : s ∈ (splitStep st c cs).acc) :
    s ∈ st.acc ∨ (s = trimSpaceL st.buf ∧ trimSpaceL st.buf ≠ []) := by
  unfold splitStep at hs
  split at hs
  · exact Or.inl hs
  · split at hs
    · split at hs
      · split at hs
        · exact Or.inl hs
        · exact semiOrWrite_acc_mem { modesUpdate st c cs with inString := false } c s hs
      · exact semiOrWrite_acc_mem { modesUpdate st c cs with inString := true } c s hs
    · exact semiOrWrite_acc_mem (modesUpdate st c cs) c s hs

/-- Every statement in the loop output is whitespace-trim-fixed and
non-empty, provided the statements already accumulated are. -/
theorem splitLoop_sound (l : List Char) :
    ∀ st : SplitState, (∀ s ∈ st.acc, trimSpaceL s = s ∧ s ≠ []) →
      ∀ s ∈ splitLoop st l, trimSpaceL s = s ∧ s ≠ [] := by
  induction l with
  | nil =>
    intro st h s hs
    rw [splitLoop_nil] at hs
    rcases List.mem_append.mp hs with h1 | h2
    · exact h s h1
    · split at h2
      · rw [List.mem_singleton] at h2
        subst h2
        exact ⟨trimSpaceL_idem _, by assumption⟩
      · cases h2
  | cons c cs ih =>
    intro st h s hs
    rw [splitLoop_cons] at hs
    refine ih _ ?_ s hs
    intro q hq
    rcases splitStep_acc_mem st c cs q hq with h1 | ⟨rfl, hne⟩
    · exact h q h1
    · exact ⟨trimSpaceL_idem _, hne⟩

/-- Every statement emitted by the splitter is whitespace-trimmed and
non-empty. -/
theorem splitSQLStatements_trimmed (sql : String) (s : String)
    (hs : s ∈ splitSQLStatements sql) : trimSpaceStr s = s ∧ s ≠ "" := by
  unfold splitSQLStatements at hs
  rcases List.mem_map.mp hs with ⟨l, hl, rfl⟩
  have h := splitLoop_sound sql.data initSplitState
    (by intro q hq; simp [initSplitState] at hq) l hl
  constructor
  · show String.mk (trimSpaceL l) = String.mk l
    rw [h.1]
  · intro hcon
    apply h.2
    have hdata := congrArg String.data hcon
    simpa using hdata

/-- A script whose characters are all whitespace or semicolons adds no
statement: the loop returns the accumulator unchanged. -/
theorem splitLoop_ws_only (l : List Char) :
    ∀ st : SplitState, (∀ c ∈ l, isSpaceGo c = true ∨ c = ';') →
      st.inString = false → st.inComment = false → st.dollarTag = none →
      st.skipNext = false → (∀ c ∈ st.buf, isSpaceGo c = true) →
      splitLoop st l = st.acc := by
  induction l with
  | nil =>
    intro st _ _ _ _ _ hbuf
    rw [splitLoop_nil, trimSpaceL_eq_nil st.buf hbuf]
    simp
  | cons c cs ih =>
    intro st hl hs hc hd hskip hbuf
    have hcspace := hl c (List.mem_cons_self c cs)
    by_cases hsemi : c = ';'
    · subst hsemi
      rw [splitLoop_semi_normal st cs hskip hs hc hd,
        trimSpaceL_eq_nil st.buf hbuf]
      have := ih { st with
                    buf := [],
                    acc := st.acc ++ (if ([] : List Char) ≠ [] then [([] : List Char)] else []) }
        (fun q hq => hl q (List.mem_cons_of_mem _ hq)) hs hc hd hskip
        (by intro q hq; cases hq)
      rw [this]
      simp
    · have hspace : isSpaceGo c = true := hcspace.resolve_right hsemi
      have hstep : splitStep st c cs = { st with buf := st.buf ++ [c] } := by
        have hdollar : c ≠ '$' := by
          intro hcon; subst hcon; exact absurd hspace (by decide)
        have hdash : c ≠ '-' := by
          intro hcon; subst hcon; exact absurd hspace (by decide)
        have hquote : c ≠ '\'' := by
          intro hcon; subst hcon; exact absurd hspace (by decide)
        have h1 : dollarUpdate st c cs = st := dollarUpdate_not_dollar _ _ _ hdollar
        have h2 : commentUpdate st c cs = st := commentUpdate_of_quiet _ _ _ hc hdash
        have hm : modesUpdate st c cs = st := by
          unfold modesUpdate; rw [h1, h2]
        unfold splitStep
        rw [if_neg (by rw [hskip]; exact Bool.false_ne_true)]
        rw [hm]
        rw [if_neg (by intro h; exact hquote h.2.2)]
        rw [semiOrWrite_write st c (by intro h; exact hsemi h.1)]
      rw [splitLoop_cons, hstep]
      exact ih _ (fun q hq => hl q (List.mem_cons_of_mem _ hq)) hs hc hd hskip
        (by intro q hq
            rcases List.mem_append.mp hq with h1 | h2
            · exact hbuf q h1
            · rw [List.mem_singleton.mp h2]; exact hspace)

/-! ## Helper lemmas for table-name extraction -/

theorem indexOfDot_concat (pre post : List Char) (hdot : '.' ∉ pre) :
    indexOfDot (pre ++ '.' :: post) = some pre.length := by
  unfold indexOfDot
  rw [List.findIdx?_append]
  rw [List.findIdx?_eq_none_iff.mpr ?hnone]
  case hnone =>
    intro x hx
    simp only [decide_eq_false_iff_not]
    intro hcon
    subst hcon
    exact hdot hx
  rw [List.findIdx?_cons, if_pos (by simp)]
  simp

theorem indexOfDot_none (tn : List Char) (hdot : '.' ∉ tn) : indexOfDot tn = none := by
  unfold indexOfDot
  rw [List.findIdx?_eq_none_iff]
  intro x hx
  simp only [decide_eq_false_iff_not]
  intro hcon
  subst hcon
  exact hdot hx

theorem stripAfterFirstDot_concat (pre post : List Char) (hne : pre ≠ [])
    (hdot : '.' ∉ pre) : stripAfterFirstDot (pre ++ '.' :: post) = post := by
  unfold stripAfterFirstDot
  rw [indexOfDot_concat pre post hdot]
  show (if pre.length > 0 then (pre ++ '.' :: post).drop (pre.length + 1)
        else pre ++ '.' :: post) = post
  rw [if_pos (by cases pre with | nil => exact absurd rfl hne | cons _ _ => simp)]
  rw [show pre ++ '.' :: post = (pre ++ ['.']) ++ post by simp]
  rw [List.drop_left' (by simp)]

theorem stripAfterFirstDot_no_dot (tn : List Char) (hdot : '.' ∉ tn) :
    stripAfterFirstDot tn = tn := by
  unfold stripAfterFirstDot
  rw [indexOfDot_none tn hdot]

theorem findTableName_skip (p : List Char) (rest : List (List Char))
    (hp : toUpperL p ≠ ['T', 'A', 'B', 'L', 'E']) :
    findTableName (p :: rest) = findTableName rest := by
  match rest with
  | [] =>
    simp only [findTableName]
    rw [if_neg (by intro h; exact hp h.1)]
  | tn :: rest2 =>
    match rest2 with
    | [] =>
      simp only [findTableName]
      rw [if_neg (by intro h; exact hp h.1)]
    | [a] =>
      simp only [findTableName]
      rw [if_neg (by intro h; exact hp h.1)]
    | [a, b] =>
      simp only [findTableName]
      rw [if_neg (by intro h; exact hp h.1)]
    | a :: b :: c :: l =>
      simp only [findTableName]
      rw [if_neg (by intro h; exact hp h.1)]

theorem findTableName_plain (p tn : List Char) (rest : List (List Char))
    (hp : toUpperL p = ['T', 'A', 'B', 'L', 'E'])
    (hif : toUpperL tn ≠ ['I', 'F']) :
    findTableName (p :: tn :: rest) = cleanupName tn := by
  match rest with
  | [] =>
    simp only [findTableName]
    rw [if_pos ⟨hp, by simp⟩, if_neg hif]
  | [a] =>
    simp only [findTableName]
    rw [if_pos ⟨hp, by simp⟩, if_neg hif]
  | [a, b] =>
    simp only [findTableName]
    rw [if_pos ⟨hp, by simp⟩, if_neg hif]
  | a :: b :: c :: l =>
    simp only [findTableName]
    rw [if_pos ⟨hp, by simp⟩, if_neg hif]

theorem findTableName_if_not_exists (p tn a b tn4 : List Char) (rest : List (List Char))
    (hp : toUpperL p = ['T', 'A', 'B', 'L', 'E'])
    (hif : toUpperL tn = ['I', 'F']) :
    findTableName (p :: tn :: a :: b :: tn4 :: rest) = cleanupName tn4 := by
  simp only [findTableName]
  rw [if_pos ⟨hp, by simp⟩, if_pos hif]

/-- A statement whose uppercase form starts with `CREATE TABLE` does not
start with `INSERT`. -/
theorem insert_create_prefix_incompat (s : String)
    (h : hasPrefixStr "CREATE TABLE" (toUpperStr s) = true) :
    hasPrefixStr "INSERT" (toUpperStr s) = false := by
  unfold hasPrefixStr at h ⊢
  rw [List.isPrefixOf_iff_prefix] at h
  by_contra hcon
  rw [Bool.not_eq_false, List.isPrefixOf_iff_prefix] at hcon
  have hpre := List.prefix_of_prefix_length_le hcon h (by decide)
  exact absurd hpre (by decide)

/-- One successful `CREATE TABLE`-prefixed statement step of the
executor loop appends the extracted (non-empty) table name, adds no
rows, and logs the execution. -/
theorem execLoop_create_step (db : DBConn) (res : MigrationResult) (ss : List String)
    (i : Nat) (tables : List String) (rows : Nat) (log : List TxOp)
    (stmt : String) (n : Nat)
    (htrim : trimSpaceStr stmt = stmt) (hne : stmt ≠ "")
    (hexec : db.exec i stmt = ExecOutcome.ok n)
    (hpre : hasPrefixStr "CREATE TABLE" (toUpperStr stmt) = true)
    (hname : extractTableName stmt ≠ "") :
    execLoop db res (stmt :: ss) i tables rows log =
      execLoop db res ss (i + 1) (tables ++ [extractTableName stmt]) rows
        (log ++ [TxOp.txExec i stmt (ExecOutcome.ok n)]) := by
  rw [execLoop]
  rw [htrim]
  rw [if_neg hne]
  rw [hexec]
  show execLoop db res ss (i + 1) _ _ _ = _
  rw [if_pos hpre, if_pos hname]
  rw [if_neg (by rw [insert_create_prefix_incompat stmt hpre]; exact Bool.false_ne_true)]

/-! ## Helper lemmas about the executor loop -/

theorem execLoop_statementsRun (db : DBConn) (res : MigrationResult) :
    ∀ (ss : List String) (i : Nat) (t : List String) (r : Nat) (log : List TxOp),
      (execLoop db res ss i t r log).result.statementsRun = res.statementsRun := by
  intro ss
  induction ss with
  | nil =>
    intro i t r log
    rw [execLoop]
    cases db.commitErr <;> rfl
  | cons s ss ih =>
    intro i t r log
    rw [execLoop]
    by_cases ht : trimSpaceStr s = ""
    · rw [if_pos ht]
      exact ih (i + 1) t r log
    · rw [if_neg ht]
      cases hx : db.exec i (trimSpaceStr s) with
      | ok n => exact ih (i + 1) _ _ _
      | err e => rfl

theorem execLoop_fail_counts (db : DBConn) (res : MigrationResult) :
    ∀ (ss : List String) (i : Nat) (t : List String) (r : Nat) (log : List TxOp),
      (execLoop db res ss i t r log).result.success = false →
      (execLoop db res ss i t r log).result.tablesCreated = res.tablesCreated ∧
      (execLoop db res ss i t r log).result.rowsInserted = res.rowsInserted := by
  intro ss
  induction ss with
  | nil =>
    intro i t r log h
    rw [execLoop] at h ⊢
    cases hc : db.commitErr with
    | some e => exact ⟨rfl, rfl⟩
    | none =>
      rw [hc] at h
      exact absurd h (by simp)
  | cons s ss ih =>
    intro i t r log h
    rw [execLoop] at h ⊢
    by_cases ht : trimSpaceStr s = ""
    · rw [if_pos ht] at h ⊢
      exact ih (i + 1) t r log h
    · rw [if_neg ht] at h ⊢
      cases hx : db.exec i (trimSpaceStr s) with
      | ok n =>
        rw [hx] at h
        exact ih (i + 1) _ _ _ h
      | err e =>
        rw [hx] at h
        exact ⟨rfl, rfl⟩

theorem execLoop_success_iff_commit (db : DBConn) (res : MigrationResult) :
    ∀ (ss : List String) (i : Nat) (t : List String) (r : Nat) (log : List TxOp),
      res.success = false → TxOp.txCommit true ∉ log →
      ((execLoop db res ss i t r log).result.success = true ↔
        TxOp.txCommit true ∈ (execLoop db res ss i t r log).log) := by
  intro ss
  induction ss with
  | nil =>
    intro i t r log hres hlog
    rw [execLoop]
    cases hc : db.commitErr with
    | some e =>
      constructor
      · intro h
        have htrue : res.success = true := h
        rw [hres] at htrue
        exact absurd htrue (by simp)
      · intro h
        rcases List.mem_append.mp h with h1 | h2
        · exact absurd h1 hlog
        · simp at h2
    | none =>
      constructor
      · intro _
        exact List.mem_append.mpr (Or.inr (by simp))
      · intro _
        rfl
  | cons s ss ih =>
    intro i t r log hres hlog
    rw [execLoop]
    by_cases ht : trimSpaceStr s = ""
    · rw [if_pos ht]
      exact ih (i + 1) t r log hres hlog
    · rw [if_neg ht]
      cases hx : db.exec i (trimSpaceStr s) with
      | ok n =>
        refine ih (i + 1) _ _ _ hres ?_
        intro hmem
        rcases List.mem_append.mp hmem with h1 | h2
        · exact hlog h1
        · simp at h2
      | err e =>
        constructor
        · intro h
          have htrue : res.success = true := h
          rw [hres] at htrue
          exact absurd htrue (by simp)
        · intro h
          rcases List.mem_append.mp h with h1 | h2
          · exact absurd h1 hlog
          · simp at h2

theorem execLoop_fail_rollback (db : DBConn) (res : MigrationResult) :
    ∀ (ss : List String) (i : Nat) (t : List String) (r : Nat) (log : List TxOp),
      res.success = false → (∀ op ∈ log, isFailOp op = false) →
      (∃ op ∈ (execLoop db res ss i t r log).log, isFailOp op = true) →
      (execLoop db res ss i t r log).result.success = false ∧
      (execLoop db res ss i t r log).log.getLast? = some TxOp.txRollback := by
  intro ss
  induction ss with
  | nil =>
    intro i t r log hres hlog hex
    rw [execLoop] at hex ⊢
    cases hc : db.commitErr with
    | some e =>
      refine ⟨hres, ?_⟩
      rw [show log ++ [TxOp.txCommit false, TxOp.txRollback]
          = (log ++ [TxOp.txCommit false]) ++ [TxOp.txRollback] by simp]
      exact List.getLast?_concat _
    | none =>
      rw [hc] at hex
      exfalso
      rcases hex with ⟨op, hop, hfail⟩
      rcases List.mem_append.mp hop with h1 | h2
      · rw [hlog op h1] at hfail
        exact Bool.noConfusion hfail
      · rw [List.mem_singleton.mp h2] at hfail
        simp [isFailOp] at hfail
  | cons s ss ih =>
    intro i t r log hres hlog hex
    rw [execLoop] at hex ⊢
    by_cases ht : trimSpaceStr s = ""
    · rw [if_pos ht] at hex ⊢
      exact ih (i + 1) t r log hres hlog hex
    · rw [if_neg ht] at hex ⊢
      cases hx : db.exec i (trimSpaceStr s) with
      | ok n =>
        rw [hx] at hex
        refine ih (i + 1) _ _ _ hres ?_ hex
        intro op hop
        rcases List.mem_append.mp hop with h1 | h2
        · exact hlog op h1
        · rw [List.mem_singleton.mp h2]
          rfl
      | err e =>
        refine ⟨hres, ?_⟩
        show (log ++ [TxOp.txExec i (trimSpaceStr s) (ExecOutcome.err e),
          TxOp.txRollback]).getLast? = some TxOp.txRollback
        rw [show log ++ [TxOp.txExec i (trimSpaceStr s) (ExecOutcome.err e), TxOp.txRollback]
            = (log ++ [TxOp.txExec i (trimSpaceStr s) (ExecOutcome.err e)]) ++ [TxOp.txRollback]
            by simp]
        exact List.getLast?_concat _

theorem execLoop_success_execs (db : DBConn) (res : MigrationResult) :
    ∀ (ss : List String) (i : Nat) (t : List String) (r : Nat) (log : List TxOp),
      res.success = false →
      (∀ s ∈ ss, trimSpaceStr s = s ∧ s ≠ "") →
      (execLoop db res ss i t r log).result.success = true →
      db.commitErr = none ∧
      ∀ (j : Nat) (hj : j < ss.length),
        ∃ n, db.exec (i + j) (ss.get ⟨j, hj⟩) = ExecOutcome.ok n := by
  intro ss
  induction ss with
  | nil =>
    intro i t r log hres _ h
    rw [execLoop] at h
    cases hc : db.commitErr with
    | some e =>
      rw [hc] at h
      have htrue : res.success = true := h
      rw [hres] at htrue
      exact absurd htrue (by simp)
    | none =>
      refine ⟨rfl, ?_⟩
      intro j hj
      exact absurd hj (by simp)
  | cons s ss ih =>
    intro i t r log hres hts h
    rw [execLoop] at h
    have hts0 := hts s (List.mem_cons_self s ss)
    rw [hts0.1, if_neg hts0.2] at h
    cases hx : db.exec i s with
    | err e =>
      rw [hx] at h
      have htrue : res.success = true := h
      rw [hres] at htrue
      exact absurd htrue (by simp)
    | ok n =>
      rw [hx] at h
      obtain ⟨hcommit, hall⟩ :=
        ih (i + 1) _ _ _ hres (fun q hq => hts q (List.mem_cons_of_mem _ hq)) h
      refine ⟨hcommit, ?_⟩
      intro j hj
      cases j with
      | zero =>
        refine ⟨n, ?_⟩
        rw [Nat.add_zero]
        exact hx
      | succ j =>
        obtain ⟨m, hm⟩ := hall j (Nat.lt_of_succ_lt_succ hj)
        refine ⟨m, ?_⟩
        rw [show i + (j + 1) = (i + 1) + j by omega]
        exact hm

theorem execLogOf_mem (db : DBConn) :
    ∀ (ss : List String) (i : Nat) (op : TxOp), op ∈ execLogOf db i ss →
      ∃ (j : Nat) (hj : j < ss.length),
        op = TxOp.txExec (i + j) (ss.get ⟨j, hj⟩)
          (db.exec (i + j) (ss.get ⟨j, hj⟩)) := by
  intro ss
  induction ss with
  | nil =>
    intro i op hop
    rw [execLogOf] at hop
    exact absurd hop (List.not_mem_nil op)
  | cons s ss ih =>
    intro i op hop
    rw [execLogOf] at hop
    rcases List.mem_cons.mp hop with h1 | h2
    · refine ⟨0, by simp, ?_⟩
      rw [Nat.add_zero]
      exact h1
    · obtain ⟨j, hj, hop2⟩ := ih (i + 1) op h2
      refine ⟨j + 1, by simpa using Nat.succ_lt_succ hj, ?_⟩
      rw [show i + (j + 1) = (i + 1) + j by omega]
      exact hop2

theorem execLoop_first_fail (db : DBConn) (res : MigrationResult) :
    ∀ (ss : List String) (k i : Nat) (t : List String) (r : Nat) (log : List TxOp)
      (e : String)
      (hts : ∀ s ∈ ss, trimSpaceStr s = s ∧ s ≠ "")
      (hk : k < ss.length),
      (∀ (j : Nat) (hj : j < k), ∃ n,
        db.exec (i + j) (ss.get ⟨j, Nat.lt_trans hj hk⟩) = ExecOutcome.ok n) →
      db.exec (i + k) (ss.get ⟨k, hk⟩) = ExecOutcome.err e →
      execLoop db res ss i t r log =
        { result := { res with
            error := "statement " ++ toString (i + k + 1) ++ " failed: " ++ e ++
                     "\nStatement: " ++ String.mk ((ss.get ⟨k, hk⟩).data.take 100) },
          errOut := some ("failed to execute statement " ++ toString (i + k + 1)
            ++ ": " ++ e),
          log := log ++ execLogOf db i (ss.take k) ++
            [TxOp.txExec (i + k) (ss.get ⟨k, hk⟩) (ExecOutcome.err e),
             TxOp.txRollback] } := by
  intro ss
  induction ss with
  | nil =>
    intro k i t r log e _ hk
    exact absurd hk (by simp)
  | cons s ss ih =>
    intro k i t r log e hts hk hok he
    have hts0 := hts s (List.mem_cons_self s ss)
    rw [execLoop, hts0.1, if_neg hts0.2]
    cases k with
    | zero =>
      rw [Nat.add_zero] at he
      rw [show db.exec i s = ExecOutcome.err e from he]
      simp only [Nat.add_zero, List.take_zero, execLogOf, List.append_nil]
      rfl
    | succ k =>
      obtain ⟨n0, hn0⟩ := hok 0 (Nat.succ_pos k)
      rw [Nat.add_zero] at hn0
      rw [show db.exec i s = ExecOutcome.ok n0 from hn0]
      show execLoop db res ss (i + 1)
          (if hasPrefixStr "CREATE TABLE" (toUpperStr s) = true then
            (if extractTableName s ≠ "" then t ++ [extractTableName s] else t)
          else t)
          (if hasPrefixStr "INSERT" (toUpperStr s) = true then r + n0 else r)
          (log ++ [TxOp.txExec i s (ExecOutcome.ok n0)]) = _
      rw [ih k (i + 1) _ _ _ e (fun q hq => hts q (List.mem_cons_of_mem _ hq))
        (Nat.lt_of_succ_lt_succ hk) ?hok2 ?he2]
      case hok2 =>
        intro j hj
        obtain ⟨n, hn⟩ := hok (j + 1) (Nat.succ_lt_succ hj)
        refine ⟨n, ?_⟩
        rw [show (i + 1) + j = i + (j + 1) by omega]
        exact hn
      case he2 =>
        rw [show (i + 1) + k = i + (k + 1) by omega]
        exact he
      rw [show (i + 1) + k = i + (k + 1) by omega]
      rw [List.take_succ_cons]
      rw [show execLogOf db i (s :: ss.take k)
          = TxOp.txExec i s (db.exec i s) :: execLogOf db (i + 1) (ss.take k) from rfl]
      rw [show db.exec i s = ExecOutcome.ok n0 from hn0]
      simp [List.append_assoc]

/-! ## Claim theorems: the tokenizing splitter -/

/-- Claim C1: a semicolon inside a dollar-quoted region does not terminate a
statement.  At a `$` outside strings and comments the scanner matches a
tag `$` + alphanumeric/underscore characters + `$`; with no dollar-quote
open it opens one with that exact tag, with one open it closes it exactly
when the matched tag equals the open tag (empty tag `$$` included), so
blocks with different tags are handled independently; a semicolon while a
dollar-quote is open is buffered, never a separator; and the
`CREATE FUNCTION ... $$ ... ; ... $$ LANGUAGE plpgsql;` script is emitted
as exactly one statement. -/
theorem dollar_quote_tag_discipline :
    (∀ (st : SplitState) (cs w rest : List Char),
      st.inString = false → st.inComment = false →
      cs.takeWhile isTagChar = w → cs.drop w.length = '$' :: rest →
      (st.dollarTag = none →
        dollarNewTag st '$' cs = some ('$' :: (w ++ ['$']))) ∧
      (∀ t, st.dollarTag = some t →
        dollarNewTag st '$' cs =
          (if '$' :: (w ++ ['$']) = t then none else some t))) ∧
    (∀ (st : SplitState) (cs : List Char),
      st.skipNext = false → st.inString = false → st.inComment = false →
      splitLoop st ('$' :: cs) =
        splitLoop { st with dollarTag := dollarNewTag st '$' cs,
                            buf := st.buf ++ ['$'] } cs) ∧
    (∀ (st : SplitState) (cs t : List Char),
      st.skipNext = false → st.dollarTag = some t →
      splitLoop st (';' :: cs) = splitLoop { st with buf := st.buf ++ [';'] } cs) ∧
    splitSQLStatements
        "CREATE FUNCTION f() RETURNS void AS $$ BEGIN RAISE NOTICE 'x;y'; END; $$ LANGUAGE plpgsql;" =
      ["CREATE FUNCTION f() RETURNS void AS $$ BEGIN RAISE NOTICE 'x;y'; END; $$ LANGUAGE plpgsql"] := by
  refine ⟨?_, ?_, ?_, by decide⟩
  · intro st cs w rest hs hc hw hdrop
    constructor
    · intro hd
      unfold dollarNewTag
      rw [if_pos ⟨rfl, hs, hc⟩]
      simp only [hw, hdrop, hd]
    · intro t hd
      unfold dollarNewTag
      rw [if_pos ⟨rfl, hs, hc⟩]
      simp only [hw, hdrop, hd]
  · exact fun st cs h1 h2 h3 => splitLoop_dollar_char st cs h1 h2 h3
  · intro st cs t hskip hd
    exact splitLoop_semi_in_dollar st cs t hskip hd

/-- Witness for C1 at concrete inputs: `$$` opens the empty tag when no
quote is open; a mismatched tag `$a$` does not close an open `$$`; the
matching tag does close it; and a semicolon is buffered while a
dollar-quote is open. -/
theorem dollar_quote_tag_discipline_witness :
    dollarNewTag initSplitState '$' ['$'] = some ['$', '$'] ∧
    dollarNewTag { initSplitState with dollarTag := some ['$', '$'] } '$' ['a', '$']
      = some ['$', '$'] ∧
    dollarNewTag { initSplitState with dollarTag := some ['$', '$'] } '$' ['$'] = none ∧
    splitLoop { initSplitState with dollarTag := some ['$', '$'], buf := ['x'] } [';']
      = splitLoop { initSplitState with dollarTag := some ['$', '$'], buf := ['x', ';'] } [] := by
  refine ⟨?_, ?_, ?_, ?_⟩
  · exact (dollar_quote_tag_discipline.1 initSplitState ['$'] [] [] rfl rfl (by decide)
      (by decide)).1 rfl
  · exact ((dollar_quote_tag_discipline.1 _ ['a', '$'] ['a'] [] rfl rfl (by decide)
      (by decide)).2 ['$', '$'] rfl).trans (by decide)
  · exact ((dollar_quote_tag_discipline.1 _ ['$'] [] [] rfl rfl (by decide)
      (by decide)).2 ['$', '$'] rfl).trans (by decide)
  · exact dollar_quote_tag_discipline.2.2.1 _ [] ['$', '$'] rfl rfl

/-- Claim C2: a semicolon inside a single-quoted string literal does not
terminate a statement: an unescaped quote toggles the in-string mode
(both directions), an escaped pair `''` inside an open string keeps the
string open with both characters buffered and scanning continuing past
both, a semicolon inside an open string is buffered, and the
`INSERT INTO t VALUES ('a;b''c')` statement is emitted whole. -/
theorem string_literal_semicolon_discipline :
    (∀ (st : SplitState) (cs : List Char),
      st.skipNext = false → st.inString = false → st.inComment = false →
      st.dollarTag = none →
      splitLoop st ('\'' :: cs) =
        splitLoop { st with inString := true, buf := st.buf ++ ['\''] } cs) ∧
    (∀ (st : SplitState) (cs : List Char),
      st.skipNext = false → st.inString = true → st.inComment = false →
      st.dollarTag = none → cs.head? ≠ some '\'' →
      splitLoop st ('\'' :: cs) =
        splitLoop { st with inString := false, buf := st.buf ++ ['\''] } cs) ∧
    (∀ (st : SplitState) (cs : List Char),
      st.skipNext = false → st.inString = true → st.inComment = false →
      st.dollarTag = none →
      splitLoop st ('\'' :: '\'' :: cs) =
        splitLoop { st with buf := st.buf ++ ['\'', '\''] } cs) ∧
    (∀ (st : SplitState) (cs : List Char),
      st.skipNext = false → st.inString = true →
      splitLoop st (';' :: cs) = splitLoop { st with buf := st.buf ++ [';'] } cs) ∧
    splitSQLStatements "INSERT INTO t VALUES ('a;b''c')"
      = ["INSERT INTO t VALUES ('a;b''c')"] := by
  refine ⟨?_, ?_, ?_, ?_, by decide⟩
  · exact fun st cs h1 h2 h3 h4 => splitLoop_quote_open st cs h1 h2 h3 h4
  · exact fun st cs h1 h2 h3 h4 h5 => splitLoop_quote_close st cs h1 h2 h3 h4 h5
  · exact fun st cs h1 h2 h3 h4 => splitLoop_escaped_quote st cs h1 h2 h3 h4
  · exact fun st cs h1 h2 => splitLoop_semi_in_string st cs h1 h2

/-- Witness for C2 at a concrete state: an escaped pair inside an open
string buffers both quotes and keeps scanning, and a semicolon inside an
open string is buffered. -/
theorem string_literal_semicolon_discipline_witness :
    splitLoop { initSplitState with inString := true, buf := ['a'] } ['\'', '\'']
      = splitLoop { initSplitState with inString := true, buf := ['a', '\'', '\''] } [] ∧
    splitLoop { initSplitState with inString := true, buf := ['a'] } [';']
      = splitLoop { initSplitState with inString := true, buf := ['a', ';'] } [] := by
  constructor
  · exact string_literal_semicolon_discipline.2.2.1 _ [] rfl rfl rfl rfl
  · exact string_literal_semicolon_discipline.2.2.2.1 _ [] rfl rfl

/-- Claim C3, counterexample: the script `--x` consists only of a line
comment, yet the splitter emits it as one statement (comment characters
are copied into the buffer), so a script of only whitespace, comments
and semicolons does not always yield the empty sequence. -/
theorem comment_only_script_emits_statement :
    splitSQLStatements "--x" = ["--x"] ∧ splitSQLStatements "--x" ≠ [] := by
  constructor
  · decide
  · decide

/-- Claim C3, amended: statements are emitted only at semicolons seen in
`Normal` mode — a semicolon seen inside a string, a line comment or a
dollar-quote is merely buffered; each emitted statement is the
whitespace-trimmed buffer, emitted only if non-empty, with the
separating semicolon not retained; the remaining non-empty buffer at end
of input is emitted; and an empty script, or a script consisting only of
whitespace and semicolons, yields the empty sequence (comment text,
however, is retained in the buffer, so a comments-only script is
emitted as a statement). -/
theorem statement_emission_discipline :
    (∀ (sql s : String), s ∈ splitSQLStatements sql → trimSpaceStr s = s ∧ s ≠ "") ∧
    (∀ (st : SplitState) (cs : List Char),
      st.skipNext = false → st.inString = false → st.inComment = false →
      st.dollarTag = none →
      splitLoop st (';' :: cs) =
        splitLoop { st with
                      buf := [],
                      acc := st.acc ++
                        (if trimSpaceL st.buf ≠ [] then [trimSpaceL st.buf] else []) } cs) ∧
    (∀ (st : SplitState) (cs : List Char),
      st.skipNext = false → st.inString = true →
      splitLoop st (';' :: cs) = splitLoop { st with buf := st.buf ++ [';'] } cs) ∧
    (∀ (st : SplitState) (cs t : List Char),
      st.skipNext = false → st.dollarTag = some t →
      splitLoop st (';' :: cs) = splitLoop { st with buf := st.buf ++ [';'] } cs) ∧
    (∀ (st : SplitState) (cs : List Char),
      st.skipNext = false → st.inString = false → st.inComment = true →
      st.dollarTag = none →
      splitLoop st (';' :: cs) = splitLoop { st with buf := st.buf ++ [';'] } cs) ∧
    (∀ st : SplitState,
      splitLoop st [] =
        st.acc ++ (if trimSpaceL st.buf ≠ [] then [trimSpaceL st.buf] else [])) ∧
    splitSQLStatements "" = [] ∧
    (∀ sql : String, (∀ c ∈ sql.data, isSpaceGo c = true ∨ c = ';') →
      splitSQLStatements sql = []) := by
  refine ⟨?_, ?_, ?_, ?_, ?_, ?_, by decide, ?_⟩
  · exact fun sql s h => splitSQLStatements_trimmed sql s h
  · exact fun st cs h1 h2 h3 h4 => splitLoop_semi_normal st cs h1 h2 h3 h4
  · exact fun st cs h1 h2 => splitLoop_semi_in_string st cs h1 h2
  · exact fun st cs t h1 h2 => splitLoop_semi_in_dollar st cs t h1 h2
  · exact fun st cs h1 h2 h3 h4 => splitLoop_semi_in_comment st cs h1 h2 h3 h4
  · exact fun st => splitLoop_nil st
  · intro sql hws
    unfold splitSQLStatements
    rw [splitLoop_ws_only sql.data initSplitState hws rfl rfl rfl rfl
      (by intro c hc; simp [initSplitState] at hc)]
    rfl

/-- Witness for C3 (amended) at concrete inputs: the statements split
out of `" a ;b"` are trimmed and non-empty, and a whitespace/semicolon
script yields the empty sequence. -/
theorem statement_emission_discipline_witness :
    (trimSpaceStr "a" = "a" ∧ ("a" : String) ≠ "") ∧
    splitSQLStatements " ; ;; " = [] := by
  constructor
  · exact statement_emission_discipline.1 " a ;b" "a" (by decide)
  · exact statement_emission_discipline.2.2.2.2.2.2.2 " ; ;; " (by decide)

/-! ## Claim theorems: table-name extraction -/

/-- Claim C6, counterexample: on `CREATE TABLE a.b.c (x int)` the code
strips up to the **first** dot (`strings.Index`) and extracts `b.c`,
while the claimed procedure (strip up to and including the **last**
dot) yields `c`. -/
theorem extract_table_name_last_dot_counterexample :
    extractTableName "CREATE TABLE a.b.c (x int)" = "b.c" ∧
    extractTableNameClaim "CREATE TABLE a.b.c (x int)" = "c" ∧
    ("b.c" : String) ≠ "c" := by
  refine ⟨by decide, by decide, by decide⟩

/-- Claim C6, amended: for a statement whose trimmed text begins
case-insensitively with `CREATE TABLE`, the extracted name is obtained
by scanning for the `TABLE` token, skipping three more tokens when the
next token is `IF`, taking the following token, stripping the
schema-qualification prefix up to and including the **first** `.` (when
that dot is not the leading character), stripping a trailing `(`, and
stripping surrounding double quotes; a statement without the prefix
extracts nothing; and in the executor a successfully executed
`CREATE TABLE`-prefixed statement with a non-empty extracted name
appends that name to the created-tables sequence. -/
theorem extract_table_name_first_dot :
    (∀ stmt : String,
      hasPrefixStr "CREATE TABLE" (toUpperStr (trimSpaceStr stmt)) = false →
      extractTableName stmt = "") ∧
    (∀ stmt : String,
      hasPrefixStr "CREATE TABLE" (toUpperStr (trimSpaceStr stmt)) = true →
      extractTableName stmt = String.mk (findTableName (fields stmt))) ∧
    (∀ (p : List Char) (rest : List (List Char)),
      toUpperL p ≠ ['T', 'A', 'B', 'L', 'E'] →
      findTableName (p :: rest) = findTableName rest) ∧
    (∀ (p tn : List Char) (rest : List (List Char)),
      toUpperL p = ['T', 'A', 'B', 'L', 'E'] → toUpperL tn ≠ ['I', 'F'] →
      findTableName (p :: tn :: rest) = cleanupName tn) ∧
    (∀ (p tn a b tn4 : List Char) (rest : List (List Char)),
      toUpperL p = ['T', 'A', 'B', 'L', 'E'] → toUpperL tn = ['I', 'F'] →
      findTableName (p :: tn :: a :: b :: tn4 :: rest) = cleanupName tn4) ∧
    (∀ tn : List Char,
      cleanupName tn = stripQuotes (stripTrailingParen (stripAfterFirstDot tn))) ∧
    (∀ (pre post : List Char), pre ≠ [] → '.' ∉ pre →
      stripAfterFirstDot (pre ++ '.' :: post) = post) ∧
    (∀ tn : List Char, '.' ∉ tn → stripAfterFirstDot tn = tn) ∧
    (∀ (db : DBConn) (res : MigrationResult) (ss : List String) (i : Nat)
        (tables : List String) (rows : Nat) (log : List TxOp)
        (stmt : String) (n : Nat),
      trimSpaceStr stmt = stmt → stmt ≠ "" →
      db.exec i stmt = ExecOutcome.ok n →
      hasPrefixStr "CREATE TABLE" (toUpperStr stmt) = true →
      extractTableName stmt ≠ "" →
      execLoop db res (stmt :: ss) i tables rows log =
        execLoop db res ss (i + 1) (tables ++ [extractTableName stmt]) rows
          (log ++ [TxOp.txExec i stmt (ExecOutcome.ok n)])) := by
  refine ⟨?_, ?_, ?_, ?_, ?_, fun tn => rfl, ?_, ?_, ?_⟩
  · intro stmt h
    simp [extractTableName, h]
  · intro stmt h
    simp [extractTableName, h]
  · exact fun p rest hp => findTableName_skip p rest hp
  · exact fun p tn rest hp hif => findTableName_plain p tn rest hp hif
  · exact fun p tn a b tn4 rest hp hif => findTableName_if_not_exists p tn a b tn4 rest hp hif
  · exact fun pre post h1 h2 => stripAfterFirstDot_concat pre post h1 h2
  · exact fun tn h => stripAfterFirstDot_no_dot tn h
  · exact fun db res ss i tables rows log stmt n h1 h2 h3 h4 h5 =>
      execLoop_create_step db res ss i tables rows log stmt n h1 h2 h3 h4 h5

/-- Witness for C6 (amended) at concrete inputs: the scan and the
first-dot strip on `public.users`, and one executor step appending
`users`. -/
theorem extract_table_name_first_dot_witness :
    extractTableName "SELECT 1" = "" ∧
    stripAfterFirstDot ['p', '.', 'u', 's'] = ['u', 's'] ∧
    execLoop { beginErr := none, exec := fun _ _ => ExecOutcome.ok 1, commitErr := none }
        {} ["CREATE TABLE users (id int)"] 0 [] 0 [] =
      execLoop { beginErr := none, exec := fun _ _ => ExecOutcome.ok 1, commitErr := none }
        {} [] 1 ["users"] 0
        [TxOp.txExec 0 "CREATE TABLE users (id int)" (ExecOutcome.ok 1)] := by
  refine ⟨?_, ?_, ?_⟩
  · exact extract_table_name_first_dot.1 "SELECT 1" (by decide)
  · exact extract_table_name_first_dot.2.2.2.2.2.2.1 ['p'] ['u', 's'] (by decide) (by decide)
  · have h := extract_table_name_first_dot.2.2.2.2.2.2.2.2
      { beginErr := none, exec := fun _ _ => ExecOutcome.ok 1, commitErr := none }
      {} [] 0 [] 0 [] "CREATE TABLE users (id int)" 1
      (by decide) (by decide) rfl (by decide) (by decide)
    rw [h]
    rw [show extractTableName "CREATE TABLE users (id int)" = "users" from by decide]
    rfl

/-! ## Claim theorems: the transactional executor -/

/-- Claim C4: `ApplyMigration` is atomic.  If the transaction log contains
any failure (failed statement or failed commit), the returned result has
`success = false` and the last transaction operation is the rollback;
`success = true` holds exactly when the transaction committed; and a
successful result implies the commit succeeded and every split statement
was executed successfully. -/
theorem apply_migration_atomic (db : DBConn) (script : String) :
    ((∃ op ∈ (applyMigration db script).log, isFailOp op = true) →
      (applyMigration db script).result.success = false ∧
      (applyMigration db script).log.getLast? = some TxOp.txRollback) ∧
    ((applyMigration db script).result.success = true ↔
      TxOp.txCommit true ∈ (applyMigration db script).log) ∧
    ((applyMigration db script).result.success = true →
      db.commitErr = none ∧
      ∀ (j : Nat) (hj : j < (splitSQLStatements script).length),
        ∃ n, db.exec j ((splitSQLStatements script).get ⟨j, hj⟩)
          = ExecOutcome.ok n) := by
  unfold applyMigration
  cases hval : validateSQL script with
  | some err =>
    refine ⟨?_, ?_, ?_⟩
    · rintro ⟨op, hop, -⟩
      exact absurd hop (List.not_mem_nil op)
    · constructor
      · intro h
        exact absurd h (by simp)
      · intro h
        exact absurd h (List.not_mem_nil _)
    · intro h
      exact absurd h (by simp)
  | none =>
    cases hb : db.beginErr with
    | some e =>
      refine ⟨?_, ?_, ?_⟩
      · rintro ⟨op, hop, -⟩
        exact absurd hop (List.not_mem_nil op)
      · constructor
        · intro h
          exact absurd h (by simp)
        · intro h
          exact absurd h (List.not_mem_nil _)
      · intro h
        exact absurd h (by simp)
    | none =>
      refine ⟨?_, ?_, ?_⟩
      · intro hex
        exact execLoop_fail_rollback db _ (splitSQLStatements script) 0 [] 0
          [TxOp.txBegin] rfl
          (by intro op hop; rw [List.mem_singleton.mp hop]; rfl) hex
      · exact execLoop_success_iff_commit db _ (splitSQLStatements script) 0 [] 0
          [TxOp.txBegin] rfl (by simp)
      · intro h
        have hmain := execLoop_success_execs db _ (splitSQLStatements script) 0 [] 0
          [TxOp.txBegin] rfl (fun s hs => splitSQLStatements_trimmed script s hs) h
        refine ⟨hmain.1, ?_⟩
        intro j hj
        obtain ⟨n, hn⟩ := hmain.2 j hj
        rw [Nat.zero_add] at hn
        exact ⟨n, hn⟩

/-- Witness for C4: for an oracle that fails the only statement, the
claim yields `success = false` with a trailing rollback. -/
theorem apply_migration_atomic_witness :
    (applyMigration
        { beginErr := none, exec := fun _ _ => ExecOutcome.err "boom",
          commitErr := none } "SELECT 1;").result.success = false ∧
    (applyMigration
        { beginErr := none, exec := fun _ _ => ExecOutcome.err "boom",
          commitErr := none } "SELECT 1;").log.getLast? = some TxOp.txRollback :=
  (apply_migration_atomic
      { beginErr := none, exec := fun _ _ => ExecOutcome.err "boom",
        commitErr := none } "SELECT 1;").1
    ⟨TxOp.txExec 0 "SELECT 1" (ExecOutcome.err "boom"), by decide, by decide⟩

/-- Claim C5: when the `k`-th (0-based; reported 1-based) split statement is
the first to fail, `ApplyMigration` reports exactly that index and a
`≤ 100`-character excerpt of that statement's (already trimmed) text, the
result is a failure, and no statement after the `k`-th is executed. -/
theorem statement_failure_reporting (db : DBConn) (script : String) (k : Nat)
    (e : String)
    (hval : validateSQL script = none) (hb : db.beginErr = none)
    (hk : k < (splitSQLStatements script).length)
    (hok : ∀ (j : Nat) (hj : j < k), ∃ n,
      db.exec j ((splitSQLStatements script).get ⟨j, Nat.lt_trans hj hk⟩)
        = ExecOutcome.ok n)
    (he : db.exec k ((splitSQLStatements script).get ⟨k, hk⟩)
      = ExecOutcome.err e) :
    (applyMigration db script).result.error =
      "statement " ++ toString (k + 1) ++ " failed: " ++ e ++ "\nStatement: " ++
        String.mk (((splitSQLStatements script).get ⟨k, hk⟩).data.take 100) ∧
    (String.mk (((splitSQLStatements script).get ⟨k, hk⟩).data.take 100)).length
      ≤ 100 ∧
    trimSpaceStr ((splitSQLStatements script).get ⟨k, hk⟩)
      = (splitSQLStatements script).get ⟨k, hk⟩ ∧
    (applyMigration db script).result.success = false ∧
    (∀ (idx : Nat) (s : String) (o : ExecOutcome),
      TxOp.txExec idx s o ∈ (applyMigration db script).log → idx ≤ k) := by
  have hsplit := execLoop_first_fail db
    { success := false, statementsRun := (splitSQLStatements script).length }
    (splitSQLStatements script) k 0 [] 0 [TxOp.txBegin] e
    (fun s hs => splitSQLStatements_trimmed script s hs) hk
    (by
      intro j hj
      obtain ⟨n, hn⟩ := hok j hj
      refine ⟨n, ?_⟩
      rw [Nat.zero_add]
      exact hn)
    (by rw [Nat.zero_add]; exact he)
  have happ : applyMigration db script =
      execLoop db
        { success := false, statementsRun := (splitSQLStatements script).length }
        (splitSQLStatements script) 0 [] 0 [TxOp.txBegin] := by
    unfold applyMigration
    rw [hval, hb]
  rw [happ, hsplit]
  refine ⟨by rw [Nat.zero_add], ?_, ?_, rfl, ?_⟩
  · rw [show (String.mk (((splitSQLStatements script).get ⟨k, hk⟩).data.take 100)).length
        = (((splitSQLStatements script).get ⟨k, hk⟩).data.take 100).length from rfl]
    rw [List.length_take]
    exact Nat.min_le_left _ _
  · exact (splitSQLStatements_trimmed script _
      (List.get_mem (splitSQLStatements script) k hk)).1
  · intro idx s o hmem
    rcases List.mem_append.mp hmem with hmem1 | hmem2
    · rcases List.mem_append.mp hmem1 with hmem3 | hmem4
      · exact absurd (List.mem_singleton.mp hmem3) (by simp)
      · obtain ⟨j, hj, hop⟩ := execLogOf_mem db _ 0 _ hmem4
        have hjlen : j < k := by
          have := hj
          rw [List.length_take] at this
          omega
        have : idx = 0 + j := by
          have hinj := hop
          simp only [TxOp.txExec.injEq] at hinj
          exact hinj.1
        omega
    · rcases List.mem_cons.mp hmem2 with hmem5 | hmem6
      · have : idx = 0 + k := by
          simp only [TxOp.txExec.injEq] at hmem5
          exact hmem5.1
        omega
      · exact absurd (List.mem_singleton.mp hmem6) (by simp)

/-- Witness for C5: a three-statement script whose second statement is
the first to fail reports index 2 with the statement excerpt, and fails. -/
theorem statement_failure_reporting_witness :
    (applyMigration
        { beginErr := none,
          exec := fun i _ => if i = 0 then ExecOutcome.ok 1
            else ExecOutcome.err "syntax error",
          commitErr := none }
        "SELECT 1; BAD STATEMENT; SELECT 3;").result.error =
      "statement 2 failed: syntax error\nStatement: BAD STATEMENT" ∧
    (applyMigration
        { beginErr := none,
          exec := fun i _ => if i = 0 then ExecOutcome.ok 1
            else ExecOutcome.err "syntax error",
          commitErr := none }
        "SELECT 1; BAD STATEMENT; SELECT 3;").result.success = false := by
  have h := statement_failure_reporting
    { beginErr := none,
      exec := fun i _ => if i = 0 then ExecOutcome.ok 1
        else ExecOutcome.err "syntax error",
      commitErr := none }
    "SELECT 1; BAD STATEMENT; SELECT 3;" 1 "syntax error"
    (by decide) rfl (by decide)
    (by
      intro j hj
      have hj0 : j = 0 := by omega
      subst hj0
      exact ⟨1, rfl⟩)
    (by decide)
  exact ⟨h.1.trans (by decide), h.2.2.2.1⟩

/-- Claim C7: validation rejects the empty (all-whitespace) script with a
dedicated message, rejects any script whose uppercased text contains a
denylisted phrase with a distinct message, and a validation failure makes
`ApplyMigration` return `success = false`, the validation message, zero
statements run, a propagated error, and an empty transaction log (no
transaction opened). -/
theorem validation_blocks_migration :
    (∀ s : String, trimSpaceStr s = "" →
      validateSQL s = some "SQL cannot be empty") ∧
    (∀ (s d : String), d ∈ dangerousOps →
      containsSubStr (toUpperStr (trimSpaceStr s)) d = true →
      ∃ d2, d2 ∈ dangerousOps ∧
        validateSQL s = some ("dangerous operation detected: " ++ d2)) ∧
    (∀ d ∈ dangerousOps,
      "SQL cannot be empty" ≠ "dangerous operation detected: " ++ d) ∧
    (∀ (db : DBConn) (s msg : String), validateSQL s = some msg →
      applyMigration db s =
        { result := { success := false, tablesCreated := [], rowsInserted := 0,
                      error := "SQL validation failed: " ++ msg,
                      statementsRun := 0 },
          errOut := some msg, log := [] }) := by
  refine ⟨?_, ?_, ?_, ?_⟩
  · intro s h
    unfold validateSQL
    rw [if_pos h]
  · intro s d hd hcontains
    have hne : trimSpaceStr s ≠ "" := by
      intro hcon
      rw [hcon] at hcontains
      simp only [dangerousOps, List.mem_cons, List.mem_nil_iff, or_false] at hd
      rcases hd with rfl | rfl | rfl <;> exact absurd hcontains (by decide)
    unfold validateSQL
    rw [if_neg hne]
    cases hfind : dangerousOps.find?
        (fun danger => containsSubStr (toUpperStr (trimSpaceStr s)) danger) with
    | none =>
      exfalso
      exact absurd hcontains (by simpa using List.find?_eq_none.mp hfind d hd)
    | some d2 =>
      exact ⟨d2, List.mem_of_find?_eq_some hfind, rfl⟩
  · intro d hd
    simp only [dangerousOps, List.mem_cons, List.mem_nil_iff, or_false] at hd
    rcases hd with rfl | rfl | rfl <;> decide
  · intro db s msg hval
    unfold applyMigration
    rw [hval]

/-- Witness for C7 at concrete scripts: the empty script is rejected with
the empty-script message, `drop database foo;` is rejected with the
denylist message, and the migration returns the blocked result with an
empty log. -/
theorem validation_blocks_migration_witness :
    validateSQL "  " = some "SQL cannot be empty" ∧
    (∃ d2, d2 ∈ dangerousOps ∧
      validateSQL "drop database foo;"
        = some ("dangerous operation detected: " ++ d2)) ∧
    applyMigration
        { beginErr := none, exec := fun _ _ => ExecOutcome.ok 1, commitErr := none }
        "drop database foo;" =
      { result := { success := false, tablesCreated := [], rowsInserted := 0,
                    error := "SQL validation failed: dangerous operation detected: DROP DATABASE",
                    statementsRun := 0 },
        errOut := some "dangerous operation detected: DROP DATABASE", log := [] } := by
  refine ⟨?_, ?_, ?_⟩
  · exact validation_blocks_migration.1 "  " (by decide)
  · exact validation_blocks_migration.2.1 "drop database foo;" "DROP DATABASE"
      (by decide) (by decide)
  · exact validation_blocks_migration.2.2.2
      { beginErr := none, exec := fun _ _ => ExecOutcome.ok 1, commitErr := none }
      "drop database foo;" "dangerous operation detected: DROP DATABASE" (by decide)

/-- Claim C8: on the three-statement users script, with every statement
succeeding and each reporting one affected row, `ApplyMigration` returns
`success = true`, `tables_created = ["users"]`, `rows_inserted = 2` (the
`CREATE TABLE` statement's affected-row count is not summed, only the
`INSERT`-prefixed ones), and `statements_run = 3`. -/
theorem successful_migration_result (db : DBConn)
    (hb : db.beginErr = none) (hc : db.commitErr = none)
    (hexec : ∀ (i : Nat) (s : String), db.exec i s = ExecOutcome.ok 1) :
    (applyMigration db
        "CREATE TABLE IF NOT EXISTS users (id int); INSERT INTO users VALUES (1); INSERT INTO users VALUES (2);").result =
      { success := true, tablesCreated := ["users"], rowsInserted := 2,
        error := "", statementsRun := 3 } := by
  obtain ⟨b, e, c⟩ := db
  have hb2 : b = none := hb
  have hc2 : c = none := hc
  have he : e = fun _ _ => ExecOutcome.ok 1 :=
    funext fun i => funext fun s => hexec i s
  subst hb2
  subst hc2
  subst he
  decide

/-- Witness for C8: the concrete all-ok oracle. -/
theorem successful_migration_result_witness :
    (applyMigration
        { beginErr := none, exec := fun _ _ => ExecOutcome.ok 1, commitErr := none }
        "CREATE TABLE IF NOT EXISTS users (id int); INSERT INTO users VALUES (1); INSERT INTO users VALUES (2);").result =
      { success := true, tablesCreated := ["users"], rowsInserted := 2,
        error := "", statementsRun := 3 } :=
  successful_migration_result
    { beginErr := none, exec := fun _ _ => ExecOutcome.ok 1, commitErr := none }
    rfl rfl (fun _ _ => rfl)

/-- Claim C9, counterexample: with the first statement (a `CREATE TABLE`)
succeeding and the second failing, the returned result's counts are
empty/zero — they do **not** reflect the `CREATE TABLE` that ran before
the failing statement (`extractTableName` would have contributed `t`). -/
theorem failure_counts_counterexample :
    (applyMigration
        { beginErr := none,
          exec := fun i _ => if i = 0 then ExecOutcome.ok 0
            else ExecOutcome.err "relation missing",
          commitErr := none }
        "CREATE TABLE t (x int); INSERT INTO missing VALUES (1);").result.success
      = false ∧
    (applyMigration
        { beginErr := none,
          exec := fun i _ => if i = 0 then ExecOutcome.ok 0
            else ExecOutcome.err "relation missing",
          commitErr := none }
        "CREATE TABLE t (x int); INSERT INTO missing VALUES (1);").result.tablesCreated
      = [] ∧
    extractTableName "CREATE TABLE t (x int)" = "t" ∧
    ([] : List String) ≠ ["t"] := by
  refine ⟨by decide, by decide, by decide, by decide⟩

/-- Claim C9, amended: whenever `ApplyMigration` returns a failed result,
the result's created-tables list is empty and its inserted-rows count is
zero — the accumulators are copied into the result only on the success
path, so a failure result never implies any statement's effect was
durably applied. -/
theorem failure_result_counts_empty (db : DBConn) (script : String)
    (hfail : (applyMigration db script).result.success = false) :
    (applyMigration db script).result.tablesCreated = [] ∧
    (applyMigration db script).result.rowsInserted = 0 := by
  unfold applyMigration at hfail ⊢
  cases hval : validateSQL script with
  | some err => exact ⟨rfl, rfl⟩
  | none =>
    rw [hval] at hfail
    cases hb : db.beginErr with
    | some e => exact ⟨rfl, rfl⟩
    | none =>
      rw [hb] at hfail
      exact execLoop_fail_counts db
        { success := false, statementsRun := (splitSQLStatements script).length }
        (splitSQLStatements script) 0 [] 0 [TxOp.txBegin] hfail

/-- Witness for C9 (amended): a failing migration carries empty counts. -/
theorem failure_result_counts_empty_witness :
    (applyMigration
        { beginErr := none, exec := fun _ _ => ExecOutcome.err "boom",
          commitErr := none }
        "CREATE TABLE t (x int);").result.tablesCreated = [] ∧
    (applyMigration
        { beginErr := none, exec := fun _ _ => ExecOutcome.err "boom",
          commitErr := none }
        "CREATE TABLE t (x int);").result.rowsInserted = 0 :=
  failure_result_counts_empty
    { beginErr := none, exec := fun _ _ => ExecOutcome.err "boom",
      commitErr := none }
    "CREATE TABLE t (x int);" (by decide)

/-- Claim C10: once validation passes, `StatementsRun` is set to the number
of split statements before any statement executes, and no later path
changes it — so it equals the full split count for every oracle, in
particular when a mid-script statement fails. -/
theorem statements_run_full_count (db : DBConn) (script : String)
    (hval : validateSQL script = none) :
    (applyMigration db script).result.statementsRun
      = (splitSQLStatements script).length := by
  unfold applyMigration
  rw [hval]
  cases hb : db.beginErr with
  | some e => rfl
  | none =>
    exact execLoop_statementsRun db
      { success := false, statementsRun := (splitSQLStatements script).length }
      (splitSQLStatements script) 0 [] 0 [TxOp.txBegin]

/-- Witness for C10: a three-statement script whose second statement
fails still reports `statements_run = 3`. -/
theorem statements_run_full_count_witness :
    (applyMigration
        { beginErr := none,
          exec := fun i _ => if i = 0 then ExecOutcome.ok 1
            else ExecOutcome.err "boom",
          commitErr := none }
        "SELECT 1; SELECT 2; SELECT 3;").result.statementsRun = 3 := by
  rw [statements_run_full_count
    { beginErr := none,
      exec := fun i _ => if i = 0 then ExecOutcome.ok 1
        else ExecOutcome.err "boom",
      commitErr := none }
    "SELECT 1; SELECT 2; SELECT 3;" (by decide)]
  decide

end Supabase
